import Mathlib

/-!
Verification development for the feedback-aware re-ranking subsystem of the
BI-Assistant repository.

The embedding below mirrors the Python sources:
  * src/rl/bandit.py                     (class UCB1Bandit)
  * src/backend/services/feedback_rl.py  (store_feedback)
  * src/backend/services/rag_pipeline.py (FeedbackAwareRetriever._get_relevant_documents)

Modelling conventions:
  * A Python dict is embedded as an association list whose keys are unique in
    every state reachable through the public operations; dict insertion adds
    the new key at the end, dict update replaces the first (hence only)
    occurrence of the key.
  * Python float arithmetic on rewards is embedded over the exact numbers the
    program manipulates: rewards and accumulated rewards are rationals
    (sums of 0.0 and 1.0), while scores, which involve sqrt and log, live in
    the real numbers.
  * The Supabase client used by load_from_supabase is modelled by the full
    table contents (a list of rows) together with an optional offset from
    which every range read raises; execute() either returns the requested
    slice or raises.
-/

namespace BIAssistant

/-- Per-arm statistics, mirroring the dict value
    \x7b"pulls": 0, "total_reward": 0.0\x7d created by UCB1Bandit.update. -/
structure Arm where
  pulls : ℕ
  total_reward : ℚ
  deriving DecidableEq, Repr

/-- The bandit state: self._arms (a dict, embedded as an association list in
    insertion order) and self._total_pulls. -/
structure UCB1Bandit where
  arms : List (String × Arm)
  total_pulls : ℕ
  deriving DecidableEq, Repr

/-- The state built by UCB1Bandit.__init__. -/
def emptyBandit : UCB1Bandit := ⟨[], 0⟩

/-- Dict membership / lookup: self._arms[arm_id], first match wins. -/
def lookupArm : List (String × Arm) → String → Option Arm
  | [], _ => none
  | (k, v) :: rest, a => if k = a then some v else lookupArm rest a

/-- Dict assignment self._arms[arm_id] = v: replace the first occurrence of
    the key, or append the new key at the end (dict insertion order). -/
def setArm : List (String × Arm) → String → Arm → List (String × Arm)
  | [], a, v => [(a, v)]
  | (k, w) :: rest, a, v =>
      if k = a then (a, v) :: rest else (k, w) :: setArm rest a v

/-- UCB1Bandit.update (src/rl/bandit.py, lines 19-25): create the arm with
    zeroed counters if absent, then increment pulls, total_reward and the
    global total_pulls. -/
def UCB1Bandit.update (b : UCB1Bandit) (arm_id : String) (reward : ℚ) :
    UCB1Bandit :=
  let arm := (lookupArm b.arms arm_id).getD ⟨0, 0⟩
  { arms := setArm b.arms arm_id ⟨arm.pulls + 1, arm.total_reward + reward⟩
    total_pulls := b.total_pulls + 1 }

/-- UCB1Bandit.get_score (src/rl/bandit.py, lines 27-44): 0.0 for an absent
    or never-pulled arm; otherwise the mean reward, plus the UCB1 exploration
    bonus when total_pulls exceeds 1. -/
noncomputable def UCB1Bandit.get_score (b : UCB1Bandit) (arm_id : String) :
    ℝ :=
  match lookupArm b.arms arm_id with
  | none => 0
  | some arm =>
      if arm.pulls = 0 then 0
      else
        let mean_reward : ℝ := (arm.total_reward : ℝ) / (arm.pulls : ℝ)
        if b.total_pulls ≤ 1 then mean_reward
        else
          mean_reward +
            Real.sqrt (2 * Real.log (b.total_pulls : ℝ) / (arm.pulls : ℝ))

/-- Sum of the per-arm pull counters of a state. -/
def sumPulls (arms : List (String × Arm)) : ℕ :=
  (arms.map fun p => p.2.pulls).sum

/-- Apply a sequence of update calls in order. -/
def applyUpdates (b : UCB1Bandit) (us : List (String × ℚ)) : UCB1Bandit :=
  us.foldl (fun bb u => bb.update u.1 u.2) b

/-- A row returned by the select("sources, feedback") query in
    load_from_supabase; either column may be missing/null. -/
structure Row where
  sources : Option (List String)
  feedback : Option String
  deriving DecidableEq, Repr

/-- The reward computed per row: row.get("feedback", "") compared against
    "positive" (src/rl/bandit.py, line 65). -/
def rewardOf (row : Row) : ℚ :=
  if row.feedback.getD "" = "positive" then 1 else 0

/-- The body of the per-row loop in load_from_supabase: sources =
    row.get("sources") or []; one update call per listed source. -/
def applyRow (b : UCB1Bandit) (row : Row) : UCB1Bandit :=
  (row.sources.getD []).foldl (fun bb url => bb.update url (rewardOf row)) b

/-- Process a page of rows in order. -/
def applyRows (b : UCB1Bandit) (rows : List Row) : UCB1Bandit :=
  rows.foldl applyRow b

/-- The page size hard-coded in load_from_supabase. -/
def page_size : ℕ := 1000

/-- Whether the range read starting at this offset raises: the Supabase
    client is modelled by the table contents plus an optional offset from
    which every read fails (none = reads never fail). -/
def readFails (failAt : Option ℕ) (offset : ℕ) : Bool :=
  match failAt with
  | some f => decide (f ≤ offset)
  | none => false

/-- The while-loop of load_from_supabase (src/rl/bandit.py, lines 49-70):
    read rows[offset, offset + page_size - 1]; stop on an empty page; apply
    the page; stop after a short page; otherwise advance the offset. A read
    that raises ends the loop with the state accumulated so far, because the
    surrounding try/except catches the exception. -/
def loadLoop (ledger : List Row) (failAt : Option ℕ) (b : UCB1Bandit)
    (offset : ℕ) : UCB1Bandit :=
  if readFails failAt offset then b
  else
    if ((ledger.drop offset).take page_size) = [] then b
    else
      let b2 := applyRows b ((ledger.drop offset).take page_size)
      if h : ((ledger.drop offset).take page_size).length < page_size then b2
      else loadLoop ledger failAt b2 (offset + page_size)
termination_by ledger.length - offset
decreasing_by
  simp only [List.length_take, List.length_drop, page_size] at h ⊢
  omega

/-- UCB1Bandit.load_from_supabase (src/rl/bandit.py, lines 46-75): run the
    paged replay loop from offset 0 on the current state; exceptions are
    caught, never propagated. -/
def UCB1Bandit.load_from_supabase (b : UCB1Bandit) (ledger : List Row)
    (failAt : Option ℕ) : UCB1Bandit :=
  loadLoop ledger failAt b 0

/-- A feedback row as inserted by store_feedback. -/
structure FeedbackRecord where
  query : String
  answer : String
  sources : List String
  feedback : String
  feedback_id : String
  deriving DecidableEq, Repr

/-- store_feedback (src/backend/services/feedback_rl.py, lines 38-69):
    compute the reward from the label, update the in-memory bandit once per
    cited source, then attempt the Supabase insert. The insert either
    appends the record to the table or raises; a raise propagates to the
    caller (there is no try/except around it), while the in-memory updates
    already performed remain in place, the mutable bandit object being the
    heap. The generated uuid is abstracted as the feedback_id argument and
    insertFails models whether the insert call raises. The result is the
    final bandit state, the final table contents, and either the returned
    feedback_id or the propagated exception. -/
def store_feedback (b : UCB1Bandit) (table : List FeedbackRecord)
    (query answer : String) (sources : List String) (feedback : String)
    (feedback_id : String) (insertFails : Bool) :
    UCB1Bandit × List FeedbackRecord × Except Unit String :=
  let reward : ℚ := if feedback = "positive" then 1 else 0
  let b2 := sources.foldl (fun bb url => bb.update url reward) b
  if insertFails then (b2, table, Except.error ())
  else
    (b2, table ++ [⟨query, answer, sources, feedback, feedback_id⟩],
      Except.ok feedback_id)

/-- A retrieval candidate produced by the match_documents RPC: the arm
    identity (metadata url) and the vector similarity score. -/
structure Candidate where
  url : String
  similarity : ℝ

/-- Comparison used by ranked.sort(key=lambda x: x[1], reverse=True): a
    document precedes another when its final score is at least as large. -/
def scoreGe (a b : Candidate × ℝ) : Prop := b.2 ≤ a.2

instance : IsTotal (Candidate × ℝ) scoreGe := ⟨fun a b => le_total b.2 a.2⟩

instance : IsTrans (Candidate × ℝ) scoreGe :=
  ⟨fun _ _ _ hab hbc => le_trans hbc hab⟩

noncomputable instance : DecidableRel scoreGe :=
  fun _ _ => Classical.propDecidable _

/-- FeedbackAwareRetriever._get_relevant_documents
    (src/backend/services/rag_pipeline.py, lines 43-85): fetch top_k * 2
    candidates from the vector store, pair every document with final_score =
    similarity + UCB1 score of its url (get_feedback_scores maps each url
    through UCB1Bandit.get_score, and unknown urls score 0.0 inside
    get_score itself), sort by final score descending with Python's stable
    list.sort, and keep the first top_k documents. Python's stable
    descending sort is embedded as insertion sort with the scoreGe
    comparison, which preserves the original order of ties. -/
noncomputable def rerank (store : ℕ → List Candidate) (b : UCB1Bandit)
    (top_k : ℕ) : List Candidate :=
  let docs_with_scores := store (top_k * 2)
  let ranked := docs_with_scores.map fun doc =>
    (doc, doc.similarity + b.get_score doc.url)
  let sorted := ranked.insertionSort scoreGe
  (sorted.take top_k).map Prod.fst

open Classical in
/-- The sublist of scored candidates whose final score equals a given
    value, in list order; used to state that the sort is stable. -/
noncomputable def scoreFilter (c : ℝ) :
    List (Candidate × ℝ) → List (Candidate × ℝ)
  | [] => []
  | p :: l => if p.2 = c then p :: scoreFilter c l else scoreFilter c l

/-- Concrete state used to instantiate the scoring claims: arm "A" pulled
    once with reward 1, arm "B" pulled once with reward 0, two pulls in
    total (the state reached from a fresh bandit by two update calls). -/
def bTwoPulls : UCB1Bandit := ⟨[("A", ⟨1, 1⟩), ("B", ⟨1, 0⟩)], 2⟩

/-- Concrete state used to instantiate the exploration-bonus claim: arms
    "A" (one pull) and "B" (two pulls), both with zero reward, three pulls
    in total. -/
def bThreePulls : UCB1Bandit := ⟨[("A", ⟨1, 0⟩), ("B", ⟨2, 0⟩)], 3⟩

/-- A ledger row with an unrecognized feedback label. -/
def rowBogus : Row := ⟨some ["u", "v"], some "bogus"⟩

/-- A ledger row recording positive feedback for one source. -/
def rowPos : Row := ⟨some ["u"], some "positive"⟩

lemma total_pulls_update (b : UCB1Bandit) (a : String) (r : ℚ) :
    (b.update a r).total_pulls = b.total_pulls + 1 := rfl

lemma sumPulls_setArm_incr (l : List (String × Arm)) (a : String) (w : ℚ) :
    sumPulls (setArm l a ⟨((lookupArm l a).getD ⟨0, 0⟩).pulls + 1, w⟩) =
      sumPulls l + 1 := by
  induction l with
  | nil => simp [setArm, lookupArm, sumPulls]
  | cons p rest ih =>
      obtain ⟨k, v⟩ := p
      by_cases hk : k = a
      · simp [setArm, lookupArm, hk, sumPulls]
        omega
      · simp only [setArm, lookupArm, hk, if_false, sumPulls, List.map_cons,
          List.sum_cons] at *
        omega

lemma sumPulls_update (b : UCB1Bandit) (a : String) (r : ℚ) :
    sumPulls (b.update a r).arms = sumPulls b.arms + 1 := by
  simpa [UCB1Bandit.update] using
    sumPulls_setArm_incr b.arms a
      (((lookupArm b.arms a).getD ⟨0, 0⟩).total_reward + r)

lemma total_pulls_applyUpdates (b : UCB1Bandit) (us : List (String × ℚ)) :
    (applyUpdates b us).total_pulls = b.total_pulls + us.length := by
  induction us generalizing b with
  | nil => simp [applyUpdates]
  | cons u rest ih =>
      simp only [applyUpdates, List.foldl_cons] at *
      rw [ih]
      simp [total_pulls_update]
      omega

lemma sumPulls_applyUpdates (b : UCB1Bandit) (us : List (String × ℚ)) :
    sumPulls (applyUpdates b us).arms = sumPulls b.arms + us.length := by
  induction us generalizing b with
  | nil => simp [applyUpdates]
  | cons u rest ih =>
      simp only [applyUpdates, List.foldl_cons] at *
      rw [ih]
      simp [sumPulls_update]
      omega

lemma applyRows_append (b : UCB1Bandit) (xs ys : List Row) :
    applyRows b (xs ++ ys) = applyRows (applyRows b xs) ys := by
  simp [applyRows, List.foldl_append]

lemma total_pulls_foldl_update (l : List String) (b : UCB1Bandit) (r : ℚ) :
    (l.foldl (fun bb u => bb.update u r) b).total_pulls =
      b.total_pulls + l.length := by
  induction l generalizing b with
  | nil => simp
  | cons u rest ih =>
      simp only [List.foldl_cons, ih, total_pulls_update, List.length_cons]
      omega

lemma total_pulls_applyRow (b : UCB1Bandit) (row : Row) :
    (applyRow b row).total_pulls =
      b.total_pulls + (row.sources.getD []).length := by
  simp [applyRow, total_pulls_foldl_update]

lemma total_pulls_applyRows (b : UCB1Bandit) (rows : List Row) :
    (applyRows b rows).total_pulls =
      b.total_pulls + (rows.map fun row => (row.sources.getD []).length).sum := by
  induction rows generalizing b with
  | nil => simp [applyRows]
  | cons row rest ih =>
      simp only [applyRows, List.foldl_cons, List.map_cons, List.sum_cons] at *
      rw [ih, total_pulls_applyRow]
      omega

lemma loadLoop_none (ledger : List Row) (n : ℕ) :
    ∀ b offset, ledger.length - offset ≤ page_size * n →
      loadLoop ledger none b offset = applyRows b (ledger.drop offset) := by
  induction n with
  | zero =>
      intro b offset hn
      have hdrop : ledger.drop offset = [] := by
        apply List.drop_eq_nil_of_le
        omega
      rw [loadLoop.eq_def]
      simp [readFails, hdrop, applyRows]
  | succ n ih =>
      intro b offset hn
      rw [loadLoop.eq_def]
      simp only [readFails, Bool.false_eq_true, if_false]
      by_cases hr : (ledger.drop offset).take page_size = []
      · have hdrop : ledger.drop offset = [] := by
          rcases List.take_eq_nil_iff.mp hr with h | h
          · exact absurd h (by simp [page_size])
          · exact h
        simp [hr, hdrop, applyRows]
      · simp only [hr, if_false]
        by_cases hlen : ((ledger.drop offset).take page_size).length < page_size
        · have hshort : (ledger.drop offset).length < page_size := by
            simpa [List.length_take] using hlen
          have htake : (ledger.drop offset).take page_size = ledger.drop offset :=
            List.take_of_length_le (le_of_lt hshort)
          rw [htake]
          simp only [List.length_drop]
          rw [dif_pos (by simp only [List.length_drop] at hshort; omega)]
        · simp only [hlen, dif_neg, dite_false]
          have hrec := ih (applyRows b ((ledger.drop offset).take page_size))
            (offset + page_size)
            (by
              have hx : page_size * (n + 1) = page_size * n + page_size := rfl
              rw [hx] at hn
              omega)
          rw [hrec]
          have hsplit : ledger.drop offset =
              (ledger.drop offset).take page_size ++
                ledger.drop (offset + page_size) := by
            have h1 : (ledger.drop offset).drop page_size =
                ledger.drop (offset + page_size) := by
              rw [List.drop_drop, Nat.add_comm]
            rw [← h1, List.take_append_drop]
          nth_rewrite 2 [hsplit]
          rw [applyRows_append]

lemma loadLoop_some (ledger : List Row) (j : ℕ) :
    ∀ b offset, loadLoop ledger (some (offset + page_size * j)) b offset =
      applyRows b ((ledger.drop offset).take (page_size * j)) := by
  induction j with
  | zero =>
      intro b offset
      rw [loadLoop.eq_def]
      simp [readFails, applyRows]
  | succ j ih =>
      intro b offset
      rw [loadLoop.eq_def]
      have hfail : readFails (some (offset + page_size * (j + 1))) offset = false := by
        simp [readFails, page_size]
      rw [hfail]
      simp only [Bool.false_eq_true, if_false]
      by_cases hr : (ledger.drop offset).take page_size = []
      · have hdrop : ledger.drop offset = [] := by
          rcases List.take_eq_nil_iff.mp hr with h | h
          · exact absurd h (by simp [page_size])
          · exact h
        simp [hr, hdrop, applyRows]
      · simp only [hr, if_false]
        by_cases hlen : ((ledger.drop offset).take page_size).length < page_size
        · have hshort : (ledger.drop offset).length < page_size := by
            simpa [List.length_take] using hlen
          have htake2 : (ledger.drop offset).take (page_size * (j + 1)) =
              ledger.drop offset := by
            apply List.take_of_length_le
            have hp : page_size ≤ page_size * (j + 1) :=
              Nat.le_mul_of_pos_right _ (Nat.succ_pos j)
            omega
          have htake : (ledger.drop offset).take page_size = ledger.drop offset :=
            List.take_of_length_le (le_of_lt hshort)
          rw [htake, htake2, dif_pos hshort]
        · simp only [hlen, dif_neg, dite_false]
          have harith : offset + page_size * (j + 1) =
              (offset + page_size) + page_size * j := by ring
          rw [harith, ih (applyRows b ((ledger.drop offset).take page_size))
            (offset + page_size)]
          have hsplit : (ledger.drop offset).take (page_size * (j + 1)) =
              (ledger.drop offset).take page_size ++
                (ledger.drop (offset + page_size)).take (page_size * j) := by
            have h2 : page_size * (j + 1) = page_size + page_size * j := by ring
            rw [h2, List.take_add]
            congr 2
            rw [List.drop_drop, Nat.add_comm]
          rw [hsplit, applyRows_append]
lemma scoreFilter_orderedInsert (c : ℝ) (x : Candidate × ℝ)
    (l : List (Candidate × ℝ)) :
    scoreFilter c (List.orderedInsert scoreGe x l) =
      if x.2 = c then x :: scoreFilter c l else scoreFilter c l := by
  induction l with
  | nil => simp [List.orderedInsert, scoreFilter]
  | cons p l ih =>
      by_cases hx : scoreGe x p
      · simp only [List.orderedInsert, if_pos hx]
        simp [scoreFilter]
      · have hlt : x.2 < p.2 := lt_of_not_le hx
        simp only [List.orderedInsert, hx, if_false]
        by_cases hxc : x.2 = c
        · have hpc : ¬ p.2 = c := by
            intro hpc
            rw [hxc, ← hpc] at hlt
            exact lt_irrefl _ hlt
          simp [scoreFilter, hpc, ih, hxc]
        · simp [scoreFilter, ih, hxc]

lemma scoreFilter_insertionSort (c : ℝ) (l : List (Candidate × ℝ)) :
    scoreFilter c (l.insertionSort scoreGe) = scoreFilter c l := by
  induction l with
  | nil => rfl
  | cons p l ih =>
      simp only [List.insertionSort, scoreFilter_orderedInsert, ih, scoreFilter]

lemma lookup_setArm_self (l : List (String × Arm)) (a : String) (v : Arm) :
    lookupArm (setArm l a v) a = some v := by
  induction l with
  | nil => simp [setArm, lookupArm]
  | cons p rest ih =>
      obtain ⟨k, w⟩ := p
      by_cases hk : k = a
      · simp [setArm, lookupArm, hk]
      · simp [setArm, lookupArm, hk, ih]

lemma lookup_setArm_ne (l : List (String × Arm)) (a a2 : String) (v : Arm)
    (h : a2 ≠ a) :
    lookupArm (setArm l a v) a2 = lookupArm l a2 := by
  induction l with
  | nil => simp [setArm, lookupArm, Ne.symm h]
  | cons p rest ih =>
      obtain ⟨k, w⟩ := p
      by_cases hk : k = a
      · subst hk
        simp [setArm, lookupArm, Ne.symm h]
      · simp [setArm, lookupArm, hk, ih]

/-- C1: for every bandit state and arm identity, get_score returns 0 when
the arm is absent or has pulls equal to 0; otherwise, with the mean reward
total_reward / pulls, it returns exactly the mean when total_pulls is at
most 1, and the mean plus sqrt(2 * ln(total_pulls) / pulls) when
total_pulls exceeds 1. -/
theorem get_score_formula (b : UCB1Bandit) (arm_id : String) :
    (lookupArm b.arms arm_id = none → b.get_score arm_id = 0) ∧
    (∀ arm, lookupArm b.arms arm_id = some arm → arm.pulls = 0 →
      b.get_score arm_id = 0) ∧
    (∀ arm, lookupArm b.arms arm_id = some arm → 0 < arm.pulls →
      b.total_pulls ≤ 1 →
      b.get_score arm_id = (arm.total_reward : ℝ) / (arm.pulls : ℝ)) ∧
    (∀ arm, lookupArm b.arms arm_id = some arm → 0 < arm.pulls →
      1 < b.total_pulls →
      b.get_score arm_id = (arm.total_reward : ℝ) / (arm.pulls : ℝ) +
        Real.sqrt (2 * Real.log (b.total_pulls : ℝ) / (arm.pulls : ℝ))) := by
  refine ⟨?_, ?_, ?_, ?_⟩
  · intro h
    simp [UCB1Bandit.get_score, h]
  · intro arm h hp
    simp [UCB1Bandit.get_score, h, hp]
  · intro arm h hp hle
    have hne : arm.pulls ≠ 0 := Nat.pos_iff_ne_zero.mp hp
    simp [UCB1Bandit.get_score, h, hne, hle]
  · intro arm h hp hgt
    have hne : arm.pulls ≠ 0 := Nat.pos_iff_ne_zero.mp hp
    have hnle : ¬ b.total_pulls ≤ 1 := not_le.mpr hgt
    simp [UCB1Bandit.get_score, h, hne, hnle]

/-- C1 witness: in the two-pull state, arm "A" (one pull, reward 1) scores
mean 1 plus the exploration bonus sqrt(2 * ln 2 / 1). -/
theorem get_score_formula_witness :
    lookupArm bTwoPulls.arms "A" = some ⟨1, 1⟩ ∧
    bTwoPulls.get_score "A" = ((1 : ℚ) : ℝ) / ((1 : ℕ) : ℝ) +
      Real.sqrt (2 * Real.log ((2 : ℕ) : ℝ) / ((1 : ℕ) : ℝ)) :=
  ⟨by decide,
    (get_score_formula bTwoPulls "A").2.2.2 ⟨1, 1⟩ (by decide) (by decide)
      (by decide)⟩

/-- C2: starting from a fresh bandit, after each individual update call of
any finite update sequence (every prefix of the sequence), the global
total_pulls equals the sum of pulls over all arms. -/
theorem total_pulls_eq_sum_after_each_update (us : List (String × ℚ))
    (n : ℕ) :
    (applyUpdates emptyBandit (us.take n)).total_pulls =
      sumPulls (applyUpdates emptyBandit (us.take n)).arms := by
  rw [total_pulls_applyUpdates, sumPulls_applyUpdates]
  simp [emptyBandit, sumPulls]

/-- C8: update increments the target arm's pulls by 1 and its total_reward
by the reward, increments the global total_pulls by 1, leaves every other
arm unchanged, and creates the arm with zeroed counters first when absent;
it is a total function, so it never fails for a well-formed reward. -/
theorem update_frame (b : UCB1Bandit) (a : String) (r : ℚ)
    (hr : r = 0 ∨ r = 1) :
    lookupArm (b.update a r).arms a =
      some ⟨((lookupArm b.arms a).getD ⟨0, 0⟩).pulls + 1,
            ((lookupArm b.arms a).getD ⟨0, 0⟩).total_reward + r⟩ ∧
    (b.update a r).total_pulls = b.total_pulls + 1 ∧
    ∀ a2, a2 ≠ a →
      lookupArm (b.update a r).arms a2 = lookupArm b.arms a2 := by
  refine ⟨?_, rfl, ?_⟩
  · simp [UCB1Bandit.update, lookup_setArm_self]
  · intro a2 h
    simp [UCB1Bandit.update, lookup_setArm_ne _ _ _ _ h]

/-- C8 witness: updating arm "u" with reward 1 on the fresh bandit creates
the arm, sets its counters to one pull and reward 1, raises total_pulls to
1, and leaves the unrelated arm "v" absent. -/
theorem update_frame_witness :
    ((1 : ℚ) = 0 ∨ (1 : ℚ) = 1) ∧
    lookupArm (emptyBandit.update "u" 1).arms "u" =
      some ⟨((lookupArm emptyBandit.arms "u").getD ⟨0, 0⟩).pulls + 1,
            ((lookupArm emptyBandit.arms "u").getD ⟨0, 0⟩).total_reward + 1⟩ ∧
    (emptyBandit.update "u" 1).total_pulls = emptyBandit.total_pulls + 1 ∧
    lookupArm (emptyBandit.update "u" 1).arms "v" =
      lookupArm emptyBandit.arms "v" :=
  ⟨Or.inr rfl,
    (update_frame emptyBandit "u" 1 (Or.inr rfl)).1,
    (update_frame emptyBandit "u" 1 (Or.inr rfl)).2.1,
    (update_frame emptyBandit "u" 1 (Or.inr rfl)).2.2 "v" (by decide)⟩

/-- C10: during ledger replay, a row whose feedback field is not exactly
"positive" (missing, empty, or unrecognized alike) is processed as a
negative observation: one update with reward 0 for every listed source, no
validation, no skipping. -/
theorem replay_nonpositive_is_negative (b : UCB1Bandit) (row : Row)
    (h : row.feedback.getD "" ≠ "positive") :
    applyRow b row =
      (row.sources.getD []).foldl (fun bb url => bb.update url 0) b := by
  simp [applyRow, rewardOf, h]

/-- C10 witness: a row labelled "bogus" is replayed as reward 0 applied to
both of its sources. -/
theorem replay_nonpositive_is_negative_witness :
    (rowBogus.feedback.getD "" ≠ "positive") ∧
    applyRow emptyBandit rowBogus =
      (rowBogus.sources.getD []).foldl
        (fun bb url => bb.update url 0) emptyBandit :=
  ⟨by decide, replay_nonpositive_is_negative emptyBandit rowBogus (by decide)⟩

/-- C6: store_feedback applies the in-memory bandit update for every cited
source before the ledger insert is attempted: the final bandit state
carries the per-source updates whether or not the insert raises; when it
raises, the error is returned to the caller (not swallowed), the table is
unchanged, and the bandit updates are not rolled back. -/
theorem store_feedback_updates_before_insert (b : UCB1Bandit)
    (table : List FeedbackRecord) (query answer : String)
    (sources : List String) (feedback feedback_id : String) :
    ((store_feedback b table query answer sources feedback feedback_id
        true).1 =
      sources.foldl
        (fun bb url =>
          bb.update url (if feedback = "positive" then 1 else 0)) b) ∧
    ((store_feedback b table query answer sources feedback feedback_id
        true).2.2 = Except.error ()) ∧
    ((store_feedback b table query answer sources feedback feedback_id
        true).2.1 = table) ∧
    ((store_feedback b table query answer sources feedback feedback_id
        false).1 =
      sources.foldl
        (fun bb url =>
          bb.update url (if feedback = "positive" then 1 else 0)) b) :=
  ⟨rfl, rfl, rfl, rfl⟩

/-- C4: warm-start on a fresh bandit with reads that never fail replays the
whole ledger as the sequence of per-event, per-source update calls in
ledger order, with reward 1 exactly for the label "positive"; every event
contributes one pull per listed source to total_pulls. -/
theorem load_replays_ledger (ledger : List Row) :
    UCB1Bandit.load_from_supabase emptyBandit ledger none =
      ledger.foldl
        (fun bb row =>
          (row.sources.getD []).foldl
            (fun b2 url =>
              b2.update url
                (if row.feedback.getD "" = "positive" then 1 else 0)) bb)
        emptyBandit ∧
    (UCB1Bandit.load_from_supabase emptyBandit ledger none).total_pulls =
      (ledger.map fun row => (row.sources.getD []).length).sum := by
  have h := loadLoop_none ledger ledger.length emptyBandit 0
    (by simp only [page_size]; omega)
  rw [UCB1Bandit.load_from_supabase, h]
  simp only [List.drop_zero]
  constructor
  · rfl
  · rw [total_pulls_applyRows]
    simp [emptyBandit]

/-- C5 counterexample: with a full first page of positive single-source
events and the second page read raising, the loader returns a bandit with
1000 pulls, not the empty state that the claim announces for a failure at
any point. -/
theorem load_failure_counterexample :
    (UCB1Bandit.load_from_supabase emptyBandit
        (List.replicate page_size rowPos) (some page_size)).total_pulls ≠ 0 := by
  have h := loadLoop_some (List.replicate page_size rowPos) 1 emptyBandit 0
  simp only [Nat.zero_add, Nat.mul_one, List.drop_zero] at h
  rw [UCB1Bandit.load_from_supabase, h, List.take_replicate,
    total_pulls_applyRows]
  simp only [Nat.min_self, List.map_replicate, rowPos, Option.getD_some,
    List.length_singleton, List.sum_replicate, smul_eq_mul, emptyBandit,
    page_size]
  omega

/-- C5 amended: a ledger read failure is never propagated (the loader is a
total function returning normally), and the bandit is left holding exactly
the replay of the pages read before the failing read; it is empty only when
the very first read fails (the cold-start case). -/
theorem load_failure_keeps_applied_pages (ledger : List Row) (k : ℕ) :
    UCB1Bandit.load_from_supabase emptyBandit ledger
        (some (page_size * k)) =
      applyRows emptyBandit (ledger.take (page_size * k)) := by
  have h := loadLoop_some ledger k emptyBandit 0
  simpa [UCB1Bandit.load_from_supabase] using h

/-- C7: when total_pulls exceeds 1, of two observed arms with equal mean
reward, the arm with strictly fewer (but positive) pulls scores strictly
higher, because its exploration bonus is larger. -/
theorem fewer_pulls_higher_score (b : UCB1Bandit) (aA aB : String)
    (armA armB : Arm)
    (hA : lookupArm b.arms aA = some armA)
    (hB : lookupArm b.arms aB = some armB)
    (hposA : 0 < armA.pulls)
    (hposB : 0 < armB.pulls)
    (hlt : armA.pulls < armB.pulls)
    (hmean : (armA.total_reward : ℝ) / (armA.pulls : ℝ) =
      (armB.total_reward : ℝ) / (armB.pulls : ℝ))
    (htp : 1 < b.total_pulls) :
    b.get_score aB < b.get_score aA := by
  have hneA : armA.pulls ≠ 0 := Nat.pos_iff_ne_zero.mp hposA
  have hneB : armB.pulls ≠ 0 := Nat.pos_iff_ne_zero.mp hposB
  have hnle : ¬ b.total_pulls ≤ 1 := not_le.mpr htp
  simp only [UCB1Bandit.get_score, hA, hB, hneA, hneB, hnle, if_false,
    ite_false]
  rw [← hmean]
  apply add_lt_add_left
  have hlog : 0 < Real.log (b.total_pulls : ℝ) := by
    apply Real.log_pos
    exact_mod_cast htp
  have h2L : 0 < 2 * Real.log (b.total_pulls : ℝ) := by linarith
  have hcastA : (0 : ℝ) < (armA.pulls : ℝ) := by exact_mod_cast hposA
  have hcastB : (0 : ℝ) < (armB.pulls : ℝ) := by exact_mod_cast hposB
  have hcastlt : (armA.pulls : ℝ) < (armB.pulls : ℝ) := by exact_mod_cast hlt
  apply Real.sqrt_lt_sqrt
  · exact div_nonneg (le_of_lt h2L) (le_of_lt hcastB)
  · exact (div_lt_div_iff_of_pos_left h2L hcastB hcastA).mpr hcastlt

/-- C7 witness: in the three-pull state with both arms at mean 0, the arm
with one pull outscores the arm with two pulls. -/
theorem fewer_pulls_higher_score_witness :
    bThreePulls.get_score "B" < bThreePulls.get_score "A" :=
  fewer_pulls_higher_score bThreePulls "A" "B" ⟨1, 0⟩ ⟨2, 0⟩ (by decide)
    (by decide) (by decide) (by decide) (by decide) (by norm_num) (by decide)

/-- C3: the retriever asks the vector store for top_k * 2 candidates,
scores every candidate with final_score = similarity + bandit score of its
url (0 for unknown arms, inside get_score), and returns the first top_k
documents of a list L that is a permutation of the scored candidates,
sorted by final score descending, and stable: within every class of equal
final scores, L keeps the original retrieval order. -/
theorem rerank_spec (store : ℕ → List Candidate) (b : UCB1Bandit)
    (top_k : ℕ) :
    ∃ L : List (Candidate × ℝ),
      rerank store b top_k = (L.take top_k).map Prod.fst ∧
      L.Perm ((store (top_k * 2)).map fun doc =>
        (doc, doc.similarity + b.get_score doc.url)) ∧
      List.Sorted scoreGe L ∧
      ∀ c : ℝ, scoreFilter c L =
        scoreFilter c ((store (top_k * 2)).map fun doc =>
          (doc, doc.similarity + b.get_score doc.url)) := by
  refine ⟨((store (top_k * 2)).map fun doc =>
      (doc, doc.similarity + b.get_score doc.url)).insertionSort scoreGe,
    ?_, List.perm_insertionSort _ _, List.sorted_insertionSort _ _,
    fun c => scoreFilter_insertionSort c _⟩
  rfl

end BIAssistant
